import Mathlib

/-!
Shallow embedding of the session/stream core of the cc-client server
(`src/server/src/utils/stream.ts`, `src/server/src/services/session.ts`,
`src/server/src/routes/ws.ts`) together with the JavaScript / Node library
functions that code calls (`JSON.parse`, `path.resolve`, `String.trim`, the
zod schema checks from `src/shared/src/cli-messages.ts` and
`src/shared/src/content-blocks.ts`), and proofs of the specification
claims about them.  JavaScript strings are modelled as `List Char`.
-/

namespace CC

/-! ### Generic character-list utilities -/

/-- Split a character list at every occurrence of `sep`.  The result always
has one more entry than the number of separator occurrences; a trailing
separator produces a trailing empty segment (the convention of JS
`String.split` and of the scan loop in `PartialJsonParser.addChunk`). -/
def splitSep (sep : Char) : List Char → List (List Char)
  | [] => [[]]
  | c :: cs =>
    if c = sep then [] :: splitSep sep cs
    else
      match splitSep sep cs with
      | [] => [[c]]
      | s :: rest => (c :: s) :: rest

/-- Interleave path segments with `'/'` (inverse of splitting on `'/'`). -/
def interSegs : List (List Char) → List Char
  | [] => []
  | s :: rest =>
    match rest with
    | [] => s
    | _ :: _ => s ++ '/' :: interSegs rest

/-- Build an absolute path string (leading slash) from its segments. -/
def joinSegs (segs : List (List Char)) : List Char :=
  '/' :: interSegs segs

/-! ### JSON values and a model of `JSON.parse`

`parseStreamJson` in `src/server/src/utils/stream.ts` calls the ECMAScript
builtin `JSON.parse`; the builtin is modelled here by a recursive-descent
parser over the JSON grammar.  Numbers are kept as a decimal mantissa and a
power of ten (the schema checks only ever ask whether a value *is* a
number).  A `\uXXXX` escape is modelled with `Char.ofNat`, which collapses
lone surrogate halves; no claim depends on such inputs. -/

inductive Json where
  | null
  | bool (b : Bool)
  | num (mant : Int) (exp : Int)
  | str (s : List Char)
  | arr (elems : List Json)
  | obj (fields : List (List Char × Json))

/-- The whitespace accepted between JSON tokens by `JSON.parse`. -/
def isJsonWs (c : Char) : Bool :=
  c = ' ' || c = '\t' || c = '\n' || c = '\x0d'

/-- Drop leading JSON whitespace. -/
def skipWs : List Char → List Char
  | [] => []
  | c :: cs => if isJsonWs c then skipWs cs else c :: cs

/-- Value of one hexadecimal digit. -/
def hexDigit (c : Char) : Option Nat :=
  if '0' ≤ c ∧ c ≤ '9' then some (c.toNat - '0'.toNat)
  else if 'a' ≤ c ∧ c ≤ 'f' then some (c.toNat - 'a'.toNat + 10)
  else if 'A' ≤ c ∧ c ≤ 'F' then some (c.toNat - 'A'.toNat + 10)
  else none

/-- Single-character JSON string escapes. -/
def escChar (e : Char) : Option Char :=
  if e = '"' then some '"'
  else if e = '\\' then some '\\'
  else if e = '/' then some '/'
  else if e = 'b' then some (Char.ofNat 8)
  else if e = 'f' then some (Char.ofNat 12)
  else if e = 'n' then some '\n'
  else if e = 'r' then some '\x0d'
  else if e = 't' then some '\t'
  else none

/-- Parse the body of a JSON string after the opening quote, returning the
decoded characters and the input remaining after the closing quote. -/
def parseJString : List Char → Option (List Char × List Char)
  | [] => none
  | '"' :: cs => some ([], cs)
  | '\\' :: 'u' :: h1 :: h2 :: h3 :: h4 :: cs =>
    match hexDigit h1, hexDigit h2, hexDigit h3, hexDigit h4 with
    | some a, some b, some c, some d =>
      (parseJString cs).map fun r =>
        (Char.ofNat (((a * 16 + b) * 16 + c) * 16 + d) :: r.1, r.2)
    | _, _, _, _ => none
  | '\\' :: e :: cs =>
    match escChar e with
    | some c => (parseJString cs).map fun r => (c :: r.1, r.2)
    | none => none
  | c :: cs =>
    if c.toNat < 32 then none
    else (parseJString cs).map fun r => (c :: r.1, r.2)

/-- Decimal digit test. -/
def isDigit (c : Char) : Bool :=
  '0' ≤ c && c ≤ '9'

/-- Take a maximal run of decimal digits. -/
def takeDigits : List Char → List Nat × List Char
  | [] => ([], [])
  | c :: cs =>
    if isDigit c then
      let r := takeDigits cs
      ((c.toNat - '0'.toNat) :: r.1, r.2)
    else ([], c :: cs)

/-- Read a digit list as a natural number. -/
def digitsToNat (ds : List Nat) : Nat :=
  ds.foldl (fun a d => a * 10 + d) 0

/-- Optional exponent part of a JSON number. -/
def parseExpPart (mant : Int) (exp : Int) (input : List Char) :
    Option ((Int × Int) × List Char) :=
  match input with
  | e :: cs =>
    if e = 'e' ∨ e = 'E' then
      let se : Bool × List Char :=
        match cs with
        | '+' :: cs2 => (false, cs2)
        | '-' :: cs2 => (true, cs2)
        | _ => (false, cs)
      match se.2 with
      | d :: ds =>
        if isDigit d then
          let r := takeDigits ds
          let ev : Nat := digitsToNat ((d.toNat - '0'.toNat) :: r.1)
          some ((mant, exp + (if se.1 then -(ev : Int) else (ev : Int))), r.2)
        else none
      | [] => none
    else some ((mant, exp), input)
  | [] => some ((mant, exp), [])

/-- Optional fraction part of a JSON number, then the exponent part. -/
def parseFracPart (neg : Bool) (intDigits : List Nat) (input : List Char) :
    Option ((Int × Int) × List Char) :=
  let signed : Nat → Int := fun n => if neg then -(n : Int) else (n : Int)
  match input with
  | '.' :: cs =>
    match cs with
    | d :: ds =>
      if isDigit d then
        let r := takeDigits ds
        let fds := (d.toNat - '0'.toNat) :: r.1
        parseExpPart (signed (digitsToNat (intDigits ++ fds)))
          (-(fds.length : Int)) r.2
      else none
    | [] => none
  | _ => parseExpPart (signed (digitsToNat intDigits)) 0 input

/-- Parse a JSON number (grammar `-? (0|[1-9][0-9]*) frac? exp?`). -/
def parseNumber (input : List Char) : Option ((Int × Int) × List Char) :=
  let core : Bool → List Char → Option ((Int × Int) × List Char) := fun neg r1 =>
    match r1 with
    | c :: cs =>
      if c = '0' then parseFracPart neg [0] cs
      else if isDigit c then
        let r := takeDigits cs
        parseFracPart neg ((c.toNat - '0'.toNat) :: r.1) r.2
      else none
    | [] => none
  match input with
  | '-' :: cs => core true cs
  | _ => core false input

mutual

/-- One JSON value, skipping leading whitespace; `fuel` bounds the nesting
depth (each recursive call first consumes at least one character, so
`length + 1` fuel is always enough). -/
def parseValue : Nat → List Char → Option (Json × List Char)
  | 0, _ => none
  | fuel + 1, input =>
    match skipWs input with
    | '"' :: cs => (parseJString cs).map fun r => (Json.str r.1, r.2)
    | '{' :: cs =>
      (match skipWs cs with
       | '}' :: rest => some (Json.obj [], rest)
       | cs2 => (parseMembers fuel cs2 []).map fun r => (Json.obj r.1, r.2))
    | '[' :: cs =>
      (match skipWs cs with
       | ']' :: rest => some (Json.arr [], rest)
       | cs2 => (parseElems fuel cs2 []).map fun r => (Json.arr r.1, r.2))
    | 't' :: 'r' :: 'u' :: 'e' :: cs => some (Json.bool true, cs)
    | 'f' :: 'a' :: 'l' :: 's' :: 'e' :: cs => some (Json.bool false, cs)
    | 'n' :: 'u' :: 'l' :: 'l' :: cs => some (Json.null, cs)
    | other => (parseNumber other).map fun r => (Json.num r.1.1 r.1.2, r.2)

/-- Comma-separated array elements up to the closing bracket. -/
def parseElems : Nat → List Char → List Json → Option (List Json × List Char)
  | 0, _, _ => none
  | fuel + 1, input, acc =>
    match parseValue fuel input with
    | some (v, rest) =>
      (match skipWs rest with
       | ',' :: rest2 => parseElems fuel rest2 (acc ++ [v])
       | ']' :: rest2 => some (acc ++ [v], rest2)
       | _ => none)
    | none => none

/-- Comma-separated object members up to the closing brace. -/
def parseMembers : Nat → List Char → List (List Char × Json) →
    Option (List (List Char × Json) × List Char)
  | 0, _, _ => none
  | fuel + 1, input, acc =>
    match skipWs input with
    | '"' :: cs =>
      (match parseJString cs with
       | some (k, rest) =>
         (match skipWs rest with
          | ':' :: rest2 =>
            (match parseValue fuel rest2 with
             | some (v, rest3) =>
               (match skipWs rest3 with
                | ',' :: rest4 => parseMembers fuel rest4 (acc ++ [(k, v)])
                | '}' :: rest4 => some (acc ++ [(k, v)], rest4)
                | _ => none)
             | none => none)
          | _ => none)
       | none => none)
    | _ => none

end

/-- Model of `JSON.parse`: one value, with only whitespace allowed after
it; `none` models a thrown `SyntaxError`. -/
def jsonParse (line : List Char) : Option Json :=
  match parseValue (line.length + 1) line with
  | none => none
  | some (v, rest) => if skipWs rest = [] then some v else none

/-! ### Field names used by the shared zod schemas -/

def kType : List Char := "type".data
def kText : List Char := "text".data
def kThinking : List Char := "thinking".data
def kSignature : List Char := "signature".data
def kId : List Char := "id".data
def kName : List Char := "name".data
def kInput : List Char := "input".data
def kToolUseT : List Char := "tool_use".data
def kToolResultT : List Char := "tool_result".data
def kToolUseId : List Char := "tool_use_id".data
def kContent : List Char := "content".data
def kIsError : List Char := "is_error".data
def kTimestamp : List Char := "timestamp".data
def kUuid : List Char := "uuid".data
def kMessage : List Char := "message".data
def kRole : List Char := "role".data
def kAssistant : List Char := "assistant".data
def kUser : List Char := "user".data
def kSystem : List Char := "system".data
def kResult : List Char := "result".data
def kSubtype : List Char := "subtype".data
def kSessionId : List Char := "session_id".data
def kCwd : List Char := "cwd".data
def kModel : List Char := "model".data
def kInit : List Char := "init".data
def kErrorS : List Char := "error".data
def kInfo : List Char := "info".data
def kPermissionRequest : List Char := "permission_request".data
def kTool : List Char := "tool".data
def kDescription : List Char := "description".data
def kCommand : List Char := "command".data
def kArguments : List Char := "arguments".data
def kSuccess : List Char := "success".data
def kDurationMs : List Char := "duration_ms".data
def kDurationApiMs : List Char := "duration_api_ms".data
def kNumTurns : List Char := "num_turns".data
def kRawText : List Char := "raw_text".data

/-! ### The decoded message types (`src/shared/src/cli-messages.ts`,
`src/shared/src/content-blocks.ts`)

Each zod schema becomes a Lean type carrying exactly the validated fields
(zod's default object mode strips unknown keys, so `safeParse(...).data`
has just these). -/

/-- `SystemSubtypeSchema = z.enum(["init", "error", "info"])`. -/
inductive SystemSubtype where
  | init
  | error
  | info
deriving DecidableEq

/-- `ContentBlockSchema`, a discriminated union on `type`. -/
inductive ContentBlock where
  | text (text : List Char)
  | thinking (thinking : List Char) (signature : Option (List Char))
  | tool_use (id name : List Char) (input : List (List Char × Json))
  | tool_result (tool_use_id : List Char) (content : Option (List Char))
      (is_error : Option Bool)

/-- `MessageContentSchema = z.union([z.string(), z.array(ContentBlockSchema)])`. -/
inductive MessageContent where
  | str (s : List Char)
  | blocks (bs : List ContentBlock)

/-- The object branch of `ResultValueSchema`. -/
structure ResultObj where
  success : Option Bool
  error : Option (List Char)
  duration_ms : Option (Int × Int)
  duration_api_ms : Option (Int × Int)
  num_turns : Option (Int × Int)

/-- `ResultValueSchema = z.union([z.string(), z.object({...})])`. -/
inductive ResultValue where
  | str (s : List Char)
  | obj (o : ResultObj)

/-- `ToolUseInfoSchema`. -/
structure ToolUseInfo where
  id : List Char
  name : List Char
  input : List (List Char × Json)

/-- `PermissionRequestInfoSchema`. -/
structure PermissionRequestInfo where
  id : List Char
  tool : List Char
  description : Option (List Char)
  command : Option (List Char)
  arguments : Option (List (List Char))

/-- `CliMessageSchema`, the discriminated union over the eight message
variants (each non-raw variant also carries the optional
`timestamp`/`uuid` base fields). -/
inductive CliMessage where
  | assistant (timestamp uuid : Option (List Char)) (content : MessageContent)
  | user (timestamp uuid : Option (List Char)) (content : MessageContent)
  | system (timestamp uuid : Option (List Char)) (subtype : Option SystemSubtype)
      (session_id cwd model : Option (List Char))
      (message : Option (Option (List Char)))
  | result (timestamp uuid : Option (List Char)) (result : Option ResultValue)
      (subtype : Option (List Char))
  | thinking (timestamp uuid : Option (List Char)) (thinking : List Char)
  | tool_use (timestamp uuid : Option (List Char)) (tool_use : ToolUseInfo)
  | permission_request (timestamp uuid : Option (List Char))
      (permission_request : PermissionRequestInfo)
  | raw_text (text : List Char)

/-! ### The zod validation, as decoders from `Json` -/

/-- Property lookup on a parsed JSON object.  `JSON.parse` keeps the last
occurrence of a duplicated key, so the search prefers later fields. -/
def getField : List (List Char × Json) → List Char → Option Json
  | [], _ => none
  | (k2, v) :: rest, k =>
    match getField rest k with
    | some r => some r
    | none => if k2 = k then some v else none

/-- `z.string()` on a present value. -/
def asString : Json → Option (List Char)
  | Json.str s => some s
  | _ => none

/-- `z.boolean()` on a present value. -/
def asBool : Json → Option Bool
  | Json.bool b => some b
  | _ => none

/-- `z.number()` on a present value. -/
def asNum : Json → Option (Int × Int)
  | Json.num m e => some (m, e)
  | _ => none

/-- `.optional()`: an absent field passes as `none`; a present field must
satisfy the inner check. -/
def optField (f : Json → Option α) : Option Json → Option (Option α)
  | none => some none
  | some j => (f j).map some

/-- `ContentBlockSchema` (discriminated union on `type`). -/
def decodeContentBlock (j : Json) : Option ContentBlock :=
  match j with
  | Json.obj fields =>
    (match getField fields kType with
     | some (Json.str t) =>
       if t = kText then
         ((getField fields kText).bind asString).map ContentBlock.text
       else if t = kThinking then do
         let th ← (getField fields kThinking).bind asString
         let sg ← optField asString (getField fields kSignature)
         pure (ContentBlock.thinking th sg)
       else if t = kToolUseT then do
         let i ← (getField fields kId).bind asString
         let n ← (getField fields kName).bind asString
         match getField fields kInput with
         | some (Json.obj inf) => pure (ContentBlock.tool_use i n inf)
         | _ => none
       else if t = kToolResultT then do
         let tid ← (getField fields kToolUseId).bind asString
         let ct ← optField asString (getField fields kContent)
         let ie ← optField asBool (getField fields kIsError)
         pure (ContentBlock.tool_result tid ct ie)
       else none
     | _ => none)
  | _ => none

/-- `MessageContentSchema`. -/
def decodeMessageContent : Json → Option MessageContent
  | Json.str s => some (MessageContent.str s)
  | Json.arr elems => (elems.mapM decodeContentBlock).map MessageContent.blocks
  | _ => none

/-- The `timestamp`/`uuid` base fields shared by the schemas. -/
def decodeBase (fields : List (List Char × Json)) :
    Option (Option (List Char) × Option (List Char)) := do
  let ts ← optField asString (getField fields kTimestamp)
  let uu ← optField asString (getField fields kUuid)
  pure (ts, uu)

/-- The required inner `message` object of the assistant/user schemas:
`z.object({ role: z.literal(role), content: MessageContentSchema })`. -/
def decodeRoleMessage (role : List Char) (fields : List (List Char × Json)) :
    Option MessageContent :=
  match getField fields kMessage with
  | some (Json.obj mf) =>
    (match getField mf kRole, getField mf kContent with
     | some (Json.str r), some c =>
       if r = role then decodeMessageContent c else none
     | _, _ => none)
  | _ => none

/-- `SystemSubtypeSchema.optional()`. -/
def decodeSubtypeField (fields : List (List Char × Json)) :
    Option (Option SystemSubtype) :=
  match getField fields kSubtype with
  | none => some none
  | some (Json.str s) =>
    if s = kInit then some (some SystemSubtype.init)
    else if s = kErrorS then some (some SystemSubtype.error)
    else if s = kInfo then some (some SystemSubtype.info)
    else none
  | some _ => none

/-- The optional `message: z.object({ content: z.string().optional() })`
field of the system schema. -/
def decodeSystemMessageField (fields : List (List Char × Json)) :
    Option (Option (Option (List Char))) :=
  match getField fields kMessage with
  | none => some none
  | some (Json.obj mf) => (optField asString (getField mf kContent)).map some
  | some _ => none

/-- `ResultValueSchema.optional()`. -/
def decodeResultValue : Option Json → Option (Option ResultValue)
  | none => some none
  | some (Json.str s) => some (some (ResultValue.str s))
  | some (Json.obj rf) => do
    let su ← optField asBool (getField rf kSuccess)
    let er ← optField asString (getField rf kErrorS)
    let dm ← optField asNum (getField rf kDurationMs)
    let da ← optField asNum (getField rf kDurationApiMs)
    let nt ← optField asNum (getField rf kNumTurns)
    pure (some (ResultValue.obj ⟨su, er, dm, da, nt⟩))
  | some _ => none

/-- `ToolUseInfoSchema`. -/
def decodeToolUseInfo : Json → Option ToolUseInfo
  | Json.obj tf => do
    let i ← (getField tf kId).bind asString
    let n ← (getField tf kName).bind asString
    match getField tf kInput with
    | some (Json.obj inf) => pure ⟨i, n, inf⟩
    | _ => none
  | _ => none

/-- `PermissionRequestInfoSchema`. -/
def decodePermissionRequestInfo : Json → Option PermissionRequestInfo
  | Json.obj pf => do
    let i ← (getField pf kId).bind asString
    let tl ← (getField pf kTool).bind asString
    let ds ← optField asString (getField pf kDescription)
    let cm ← optField asString (getField pf kCommand)
    let ar ←
      match getField pf kArguments with
      | none => some none
      | some (Json.arr xs) => (xs.mapM asString).map some
      | some _ => none
    pure ⟨i, tl, ds, cm, ar⟩
  | _ => none

/-- `AssistantMessageSchema` (minus the already-dispatched `type`). -/
def decodeAssistantMsg (fields : List (List Char × Json)) : Option CliMessage := do
  let b ← decodeBase fields
  let c ← decodeRoleMessage kAssistant fields
  pure (CliMessage.assistant b.1 b.2 c)

/-- `UserMessageSchema`. -/
def decodeUserMsg (fields : List (List Char × Json)) : Option CliMessage := do
  let b ← decodeBase fields
  let c ← decodeRoleMessage kUser fields
  pure (CliMessage.user b.1 b.2 c)

/-- `SystemMessageSchema`. -/
def decodeSystemMsg (fields : List (List Char × Json)) : Option CliMessage := do
  let b ← decodeBase fields
  let st ← decodeSubtypeField fields
  let sid ← optField asString (getField fields kSessionId)
  let cw ← optField asString (getField fields kCwd)
  let md ← optField asString (getField fields kModel)
  let mg ← decodeSystemMessageField fields
  pure (CliMessage.system b.1 b.2 st sid cw md mg)

/-- `ResultMessageSchema`. -/
def decodeResultMsg (fields : List (List Char × Json)) : Option CliMessage := do
  let b ← decodeBase fields
  let rv ← decodeResultValue (getField fields kResult)
  let st ← optField asString (getField fields kSubtype)
  pure (CliMessage.result b.1 b.2 rv st)

/-- `ThinkingMessageSchema`. -/
def decodeThinkingMsg (fields : List (List Char × Json)) : Option CliMessage := do
  let b ← decodeBase fields
  let th ← (getField fields kThinking).bind asString
  pure (CliMessage.thinking b.1 b.2 th)

/-- `ToolUseMessageSchema`. -/
def decodeToolUseMsg (fields : List (List Char × Json)) : Option CliMessage := do
  let b ← decodeBase fields
  let tu ← (getField fields kToolUseT).bind decodeToolUseInfo
  pure (CliMessage.tool_use b.1 b.2 tu)

/-- `PermissionRequestMessageSchema`. -/
def decodePermissionRequestMsg (fields : List (List Char × Json)) :
    Option CliMessage := do
  let b ← decodeBase fields
  let pr ← (getField fields kPermissionRequest).bind decodePermissionRequestInfo
  pure (CliMessage.permission_request b.1 b.2 pr)

/-- `RawTextMessageSchema` (no base fields in the source schema). -/
def decodeRawTextMsg (fields : List (List Char × Json)) : Option CliMessage :=
  ((getField fields kText).bind asString).map CliMessage.raw_text

/-- `CliMessageSchema.safeParse`: a discriminated union keyed on `type`;
anything that is not an object with a known literal `type` fails. -/
def decodeCliMessage : Json → Option CliMessage
  | Json.obj fields =>
    (match getField fields kType with
     | some (Json.str t) =>
       if t = kAssistant then decodeAssistantMsg fields
       else if t = kUser then decodeUserMsg fields
       else if t = kSystem then decodeSystemMsg fields
       else if t = kResult then decodeResultMsg fields
       else if t = kThinking then decodeThinkingMsg fields
       else if t = kToolUseT then decodeToolUseMsg fields
       else if t = kPermissionRequest then decodePermissionRequestMsg fields
       else if t = kRawText then decodeRawTextMsg fields
       else none
     | _ => none)
  | _ => none

/-- The eight members of `CliMessageTypeSchema`. -/
def cliMessageTypeNames : List (List Char) :=
  [kAssistant, kUser, kSystem, kResult, kThinking, kToolUseT,
   kPermissionRequest, kRawText]

/-- `isKnownMessageType` from `src/server/src/utils/stream.ts`. -/
def isKnownMessageType (t : List Char) : Bool :=
  cliMessageTypeNames.contains t

/-- The JS test `typeof parsed === "object" && parsed !== null &&
"type" in parsed && typeof parsed.type === "string"`, returning the
string when it holds.  A parsed array is `typeof "object"` but has no
`type` own-property, and `null` is excluded explicitly. -/
def jsObjectStringType : Json → Option (List Char)
  | Json.obj fields =>
    (match getField fields kType with
     | some (Json.str t) => some t
     | _ => none)
  | _ => none

/-- The one-character prefix used by `line.startsWith("{")`. -/
def openBrace : List Char := ['{']

/-- `parseStreamJson` from `src/server/src/utils/stream.ts`: non-JSON
lines become `raw_text`; a schema success is returned as decoded; a
failure with a string `type` field (known or unknown) downgrades to
`raw_text` carrying the line; otherwise (no usable `type`, or a JSON
syntax error) no message is produced. -/
def parseStreamJson (line : List Char) : Option CliMessage :=
  if !(List.isPrefixOf openBrace line) then some (CliMessage.raw_text line)
  else
    match jsonParse line with
    | none => none
    | some parsed =>
      match decodeCliMessage parsed with
      | some m => some m
      | none =>
        match jsObjectStringType parsed with
        | some t =>
          if isKnownMessageType t then some (CliMessage.raw_text line)
          else some (CliMessage.raw_text line)
        | none => none

/-! ### The line-framing parser (`PartialJsonParser`) -/

/-- The whitespace removed by JS `String.trim` (ASCII whitespace, NBSP,
the Unicode space separators, line/paragraph separators and the BOM). -/
def isJsTrimWs (c : Char) : Bool :=
  c.toNat = 9 || c.toNat = 10 || c.toNat = 11 || c.toNat = 12 ||
  c.toNat = 13 || c.toNat = 32 || c.toNat = 160 || c.toNat = 0x1680 ||
  (0x2000 ≤ c.toNat && c.toNat ≤ 0x200A) || c.toNat = 0x2028 ||
  c.toNat = 0x2029 || c.toNat = 0x202F || c.toNat = 0x205F ||
  c.toNat = 0x3000 || c.toNat = 0xFEFF

/-- `line.trim()` is falsy exactly when every character is trim
whitespace. -/
def isBlank (l : List Char) : Bool :=
  l.all isJsTrimWs

/-- The body of the `while` loop of `addChunk`: walk the buffer, emitting
the text before each newline as a line and keeping the text after the
last newline.  `cur` is the prefix of the current line read so far. -/
def scanLines (cur : List Char) : List Char → List (List Char) × List Char
  | [] => ([], cur)
  | c :: cs =>
    if c = '\n' then
      let r := scanLines [] cs
      (cur :: r.1, r.2)
    else scanLines (cur ++ [c]) cs

/-- Per-line processing inside the loop: blank lines are skipped without
decoding, and lines the decoder rejects produce no message. -/
def lineMessages (ls : List (List Char)) : List CliMessage :=
  ls.filterMap fun l => if isBlank l then none else parseStreamJson l

/-- The parser state: one string buffer. -/
structure PartialJsonParser where
  buffer : List Char

/-- `PartialJsonParser.addChunk`: append the chunk to the buffer, split
off every complete line, and decode each non-blank one. -/
def addChunk (p : PartialJsonParser) (chunk : List Char) :
    List CliMessage × PartialJsonParser :=
  let r := scanLines [] (p.buffer ++ chunk)
  (lineMessages r.1, ⟨r.2⟩)

/-- Feed a sequence of chunks to one parser, collecting all messages in
emission order. -/
def feedChunks (p : PartialJsonParser) :
    List (List Char) → List CliMessage × PartialJsonParser
  | [] => ([], p)
  | c :: cs =>
    let r := addChunk p c
    let r2 := feedChunks r.2 cs
    (r.1 ++ r2.1, r2.2)

/-- Specification-side view: the newline-terminated lines of `S`, i.e.
all segments of the newline split except the trailing one. -/
def completeLines (S : List Char) : List (List Char) :=
  (splitSep '\n' S).dropLast

/-- Specification-side view: the final segment of `S` after its last
newline (empty when `S` ends in a newline). -/
def restOf (S : List Char) : List Char :=
  (splitSep '\n' S).getLastD []

/-! ### Path validation (`isValidWorkDir` and its Node helpers) -/

/-- One step of Node's path normalisation: empty and `.` segments vanish,
`..` pops the previous segment (and is dropped at the root, since
`path.resolve` never goes above `/`). -/
def normStep (acc : List (List Char)) (s : List Char) : List (List Char) :=
  if s = [] then acc
  else if s = ['.'] then acc
  else if s = ['.', '.'] then acc.dropLast
  else acc ++ [s]

/-- Normalise a segment list left to right. -/
def normSegs (segs : List (List Char)) : List (List Char) :=
  segs.foldl normStep []

/-- Node `path.resolve(p)` (single argument): an absolute `p` is
normalised as is, a relative `p` is resolved against the working
directory first. -/
def resolveP (cwd p : List Char) : List Char :=
  match p with
  | '/' :: _ => joinSegs (normSegs (splitSep '/' p))
  | _ => joinSegs (normSegs (splitSep '/' (cwd ++ '/' :: p)))

/-- The string `"/tmp"`, second entry of `ALLOWED_BASE_PATHS`. -/
def tmpPath : List Char := "/tmp".data

/-- Return shape of `isValidWorkDir`. -/
structure ValidationResult where
  valid : Bool
  error : Option (List Char)

/-- Error text `Access denied: ${workDir} is not in allowed paths`. -/
def accessDeniedMsg (workDir : List Char) : List Char :=
  ("Access denied: ".data) ++ workDir ++ (" is not in allowed paths".data)

/-- Error text `Directory not found: ${workDir}`. -/
def dirNotFoundMsg (workDir : List Char) : List Char :=
  ("Directory not found: ".data) ++ workDir

/-- `isValidWorkDir` from `src/server/src/services/session.ts`.  `home`
stands for `process.env.HOME || "/"`, and `fs` for `existsSync` (the
filesystem is a parameter of the model).  The allow-list test is
`normalized.startsWith(path.resolve(base))` for each base. -/
def isValidWorkDir (cwd home : List Char) (fs : List Char → Bool)
    (workDir : List Char) : ValidationResult :=
  let normalized := resolveP cwd workDir
  let isAllowed := [home, tmpPath].any fun base =>
    List.isPrefixOf (resolveP cwd base) normalized
  if !isAllowed then ⟨false, some (accessDeniedMsg workDir)⟩
  else if !(fs normalized) then ⟨false, some (dirNotFoundMsg workDir)⟩
  else ⟨true, none⟩

/-! ### The session state machine (`ClaudeSession`) -/

/-- `status: "active" | "ended"`. -/
inductive SessionStatus where
  | active
  | ended
deriving DecidableEq

/-- The structured lines `writeToStdin` serialises to the subprocess. -/
inductive StdinData where
  | userMessage (content : List Char)
  | approval (approved : Bool)
  | toolResult (tool_use_id content : List Char)
deriving DecidableEq

/-- The mutable fields of `ClaudeSession` the claims are about.
`processPresent` models `this.process !== null`, `stdinPresent` models a
usable `this.process?.stdin`, `endHandlers` is the list of registered
end-listener identities, and `stdinWrites` logs the lines written to the
subprocess. -/
structure SessionState where
  status : SessionStatus
  claudeSessionId : Option (List Char)
  claudeSessionIdFromInit : Option (List Char)
  isAborting : Bool
  processPresent : Bool
  stdinPresent : Bool
  endHandlersCalled : Bool
  endHandlers : List Nat
  lastActivity : Nat
  workDir : List Char
  stdinWrites : List StdinData

/-- `touch()`: refresh the last-activity timestamp (`now` stands for
`Date.now()`). -/
def touch (now : Nat) (s : SessionState) : SessionState :=
  { s with lastActivity := now }

/-- Error message thrown by `getActiveStdin`. -/
def sessionNotActiveMsg : List Char :=
  "Session is not active".data

/-- `getActiveStdin()`: throws unless a stdin handle exists and the
session is still active. -/
def getActiveStdin (s : SessionState) : Except (List Char) Unit :=
  if !s.stdinPresent || !(decide (s.status = SessionStatus.active)) then
    Except.error sessionNotActiveMsg
  else Except.ok ()

/-- `writeToStdin(data)`: guarded by `getActiveStdin`; the successful
write is logged.  (The JS `stdin.write` itself is modelled as succeeding;
no claim exercises a write fault.) -/
def writeToStdin (s : SessionState) (data : StdinData) :
    SessionState × Except (List Char) Unit :=
  match getActiveStdin s with
  | Except.error e => (s, Except.error e)
  | Except.ok _ => ({ s with stdinWrites := s.stdinWrites ++ [data] }, Except.ok ())

/-- `sendMessage(message)`: touch first, then write the user turn. -/
def sendMessage (now : Nat) (s : SessionState) (message : List Char) :
    SessionState × Except (List Char) Unit :=
  writeToStdin (touch now s) (StdinData.userMessage message)

/-- `approve()`. -/
def approve (s : SessionState) : SessionState × Except (List Char) Unit :=
  writeToStdin s (StdinData.approval true)

/-- `reject()`. -/
def reject (s : SessionState) : SessionState × Except (List Char) Unit :=
  writeToStdin s (StdinData.approval false)

/-- `respondToToolUse(toolUseId, content)`: touch, then write the tool
result turn. -/
def respondToToolUse (now : Nat) (s : SessionState)
    (toolUseId content : List Char) : SessionState × Except (List Char) Unit :=
  writeToStdin (touch now s) (StdinData.toolResult toolUseId content)

/-- `callEndHandlers()`: on the first call flip the guard, set the status
to ended and notify every registered end handler (returned as the list of
notified handler identities); later calls do nothing. -/
def callEndHandlers (s : SessionState) : SessionState × List Nat :=
  if s.endHandlersCalled then (s, [])
  else ({ s with endHandlersCalled := true, status := SessionStatus.ended },
        s.endHandlers)

/-- `end()`: kill and null the process, run the end handlers, then clear
all handler lists. -/
def endSessionOp (s : SessionState) : SessionState × List Nat :=
  let r := callEndHandlers { s with processPresent := false }
  ({ r.1 with endHandlers := [] }, r.2)

/-- The three signals that funnel into `callEndHandlers`: the
`process.exited` continuation, the stdout read loop's `finally`, and an
explicit `end()`. -/
inductive EndTrigger where
  | processExit
  | streamClose
  | explicitEnd
deriving DecidableEq

/-- Dispatch one termination signal. -/
def applyTrigger (s : SessionState) : EndTrigger → SessionState × List Nat
  | EndTrigger.processExit => callEndHandlers s
  | EndTrigger.streamClose => callEndHandlers s
  | EndTrigger.explicitEnd => endSessionOp s

/-- Run a sequence of termination signals, collecting every end-handler
notification in order. -/
def runTriggers (s : SessionState) : List EndTrigger → SessionState × List Nat
  | [] => (s, [])
  | t :: ts =>
    let r := applyTrigger s t
    let r2 := runTriggers r.1 ts
    (r2.1, r.2 ++ r2.2)

/-- JS truthiness of a nullable string (`null` and `""` are falsy). -/
def jsTruthy : Option (List Char) → Bool
  | none => false
  | some s => !s.isEmpty

/-- `getClaudeSessionId()`: `this.claudeSessionIdFromInit ||
this.claudeSessionId`. -/
def getClaudeSessionId (fromInit seeded : Option (List Char)) :
    Option (List Char) :=
  if jsTruthy fromInit then fromInit else seeded

/-- The init-capture step of `readOutputStream`: on a decoded `system`
message with subtype `init` and a truthy `session_id`, record the id
unless one is already recorded. -/
def captureInit (cur : Option (List Char)) (m : CliMessage) :
    Option (List Char) :=
  match m with
  | CliMessage.system _ _ subtype sid _ _ _ =>
    if subtype = some SystemSubtype.init then
      if jsTruthy sid && !(jsTruthy cur) then sid else cur
    else cur
  | _ => cur

/-- Specification-side view of one message: the id an init message
offers for capture, if any. -/
def initSid (m : CliMessage) : Option (List Char) :=
  match m with
  | CliMessage.system _ _ subtype sid _ _ _ =>
    if subtype = some SystemSubtype.init ∧ jsTruthy sid then sid else none
  | _ => none

/-! ### The WebSocket abort path (`ws.ts`, `abort` case) -/

/-- The transport events the abort path can emit to the client. -/
inductive WsEvent where
  | session_ended
  | session_resumed_after_abort (claudeSessionId : List Char)
deriving DecidableEq

/-- `callEndHandlers` composed with the transport `onEnd` listener that
`create_session` registered (`ws.ts`): the listener returns early while
`session.isAborting`, otherwise it sends `session_ended`. -/
def callEndHandlersWs (s : SessionState) : SessionState × List WsEvent :=
  if s.endHandlersCalled then (s, [])
  else ({ s with endHandlersCalled := true, status := SessionStatus.ended },
        if s.isAborting then [] else [WsEvent.session_ended])

/-- A fresh session as `resumeSession` builds it: seeded with the
upstream conversation id, active, nothing captured yet. -/
def resumeSeeded (workDir claudeSid : List Char) : SessionState :=
  { status := SessionStatus.active
    claudeSessionId := some claudeSid
    claudeSessionIdFromInit := none
    isAborting := false
    processPresent := true
    stdinPresent := true
    endHandlersCalled := false
    endHandlers := []
    lastActivity := 0
    workDir := workDir
    stdinWrites := [] }

/-- `abort()` as observed through the transport: when a live process
exists, set the aborting flag, send SIGINT, and the process exit then
runs the end handlers (including the guarded transport listener) before
`abort()` resolves. -/
def abortRun (s : SessionState) : SessionState × List WsEvent :=
  if s.processPresent && decide (s.status = SessionStatus.active) then
    callEndHandlersWs { s with isAborting := true }
  else (s, [])

/-- The `abort` case of the WebSocket handler: read the upstream id,
await `abort()`, then either auto-resume a new session seeded with that
id (announcing `session_resumed_after_abort`) or, with no id, announce
`session_ended`.  Returns the old session, the resumed session if any,
and the transport events in emission order. -/
def wsAbortCase (s : SessionState) :
    SessionState × Option SessionState × List WsEvent :=
  let claudeSid := getClaudeSessionId s.claudeSessionIdFromInit s.claudeSessionId
  let ab := abortRun s
  match claudeSid with
  | some u =>
    (ab.1, some (resumeSeeded s.workDir u),
     ab.2 ++ [WsEvent.session_resumed_after_abort u])
  | none => (ab.1, none, ab.2 ++ [WsEvent.session_ended])

/-! ### Auxiliary definitions used only to state and prove the claims -/

/-- Prepend pending text to the first segment of a split (used to relate
the buffer-threading scan to the one-shot newline split). -/
def consHead (cur : List Char) : List (List Char) → List (List Char)
  | [] => [cur]
  | s :: rest => (cur ++ s) :: rest

/-- A path segment that normalisation leaves alone. -/
def isNormalSeg (s : List Char) : Prop :=
  s ≠ [] ∧ s ≠ ['.'] ∧ s ≠ ['.', '.']

instance (s : List Char) : Decidable (isNormalSeg s) := by
  unfold isNormalSeg; infer_instance

/-! ### Concrete inputs for the witnesses -/

def helloLine : List Char := "hello".data
def braceLine : List Char := "\x7b".data
def knownInvalidLine : List Char := "\x7b\"type\":\"thinking\"\x7d".data
def unknownTypeLine : List Char := "\x7b\"type\":\"wibble\"\x7d".data
def wibbleStr : List Char := "wibble".data
def etcPath : List Char := "/etc".data
def rootPath : List Char := "/".data
def dotsEtc : List Char := "/../../../etc".data
def tailDots : List Char := "../../../etc".data
def ddSeg : List Char := "..".data
def etcSeg : List Char := "etc".data
def tmpFooPath : List Char := "/tmpfoo".data
def exampleHomeSegs : List (List Char) := ["home".data, "user".data]
def exampleHome : List Char := joinSegs exampleHomeSegs
def exampleFs (p : List Char) : Bool := p == exampleHome || p == tmpPath
def fsTmpFoo (p : List Char) : Bool := p == tmpFooPath
def upstreamId : List Char := "U1".data
def msgX : List Char := "hi".data

/-- An active session with a captured upstream id and two end listeners. -/
def liveSession : SessionState :=
  { status := SessionStatus.active
    claudeSessionId := none
    claudeSessionIdFromInit := some upstreamId
    isAborting := false
    processPresent := true
    stdinPresent := true
    endHandlersCalled := false
    endHandlers := [0, 1]
    lastActivity := 0
    workDir := tmpPath
    stdinWrites := [] }

/-- A session whose subprocess has already terminated. -/
def endedSession : SessionState :=
  { status := SessionStatus.ended
    claudeSessionId := none
    claudeSessionIdFromInit := none
    isAborting := false
    processPresent := false
    stdinPresent := true
    endHandlersCalled := true
    endHandlers := []
    lastActivity := 5
    workDir := tmpPath
    stdinWrites := [] }

/-- Duplicate termination signals: process exit, then the stdout read
loop closing, then an explicit `end()`. -/
def exampleTriggers : List EndTrigger :=
  [EndTrigger.processExit, EndTrigger.streamClose, EndTrigger.explicitEnd]

/-! ## Theorems

First the lemma chain for claim C1 (chunking invariance of the framer),
then the remaining claims in order. -/

theorem splitSep_ne_nil (sep : Char) (l : List Char) : splitSep sep l ≠ [] := by
  cases l with
  | nil => simp [splitSep]
  | cons c cs =>
    by_cases h : c = sep
    · simp [splitSep, h]
    · simp only [splitSep, if_neg h]
      cases hs : splitSep sep cs with
      | nil => simp
      | cons s rest => simp

theorem scanLines_append (xs : List Char) : ∀ (cur ys : List Char),
    scanLines cur (xs ++ ys) =
      ((scanLines cur xs).1 ++ (scanLines (scanLines cur xs).2 ys).1,
       (scanLines (scanLines cur xs).2 ys).2) := by
  induction xs with
  | nil => intro cur ys; simp [scanLines]
  | cons c cs ih =>
    intro cur ys
    by_cases h : c = '\n'
    · subst h
      simp [scanLines, ih]
    · simp [scanLines, h, ih]

theorem scanLines_shift (d : List Char) (hd : '\n' ∉ d) : ∀ cur ys,
    scanLines cur (d ++ ys) = scanLines (cur ++ d) ys := by
  induction d with
  | nil => intro cur ys; simp
  | cons c cs ih =>
    intro cur ys
    have hc : ¬ (c = '\n') := fun hh => hd (by simp [hh])
    have hcs : '\n' ∉ cs := fun hh => hd (by simp [hh])
    have e1 : scanLines cur ((c :: cs) ++ ys) = scanLines (cur ++ [c]) (cs ++ ys) := by
      simp [scanLines, hc]
    rw [e1, ih hcs (cur ++ [c]) ys]
    congr 1
    simp

theorem scanLines_rest_no_nl (s : List Char) : ∀ cur, '\n' ∉ cur →
    '\n' ∉ (scanLines cur s).2 := by
  induction s with
  | nil => intro cur h; simpa [scanLines] using h
  | cons c cs ih =>
    intro cur h
    by_cases hc : c = '\n'
    · subst hc
      simpa [scanLines] using ih [] (by simp)
    · simp only [scanLines, if_neg hc]
      refine ih (cur ++ [c]) ?_
      intro hmem
      rcases List.mem_append.mp hmem with h1 | h1
      · exact h h1
      · simp at h1
        exact hc h1.symm

theorem feedChunks_eq_addChunk (chunks : List (List Char)) :
    ∀ p : PartialJsonParser, '\n' ∉ p.buffer →
      feedChunks p chunks = addChunk p chunks.flatten := by
  induction chunks with
  | nil =>
    intro p hp
    obtain ⟨buf⟩ := p
    have e : scanLines [] buf = ([], buf) := by
      simpa using scanLines_shift buf hp [] []
    simp [feedChunks, addChunk, e, lineMessages]
  | cons c cs ih =>
    intro p hp
    obtain ⟨buf⟩ := p
    have h2 : '\n' ∉ (scanLines [] (buf ++ c)).2 :=
      scanLines_rest_no_nl _ [] (by simp)
    simp only [feedChunks]
    rw [ih (addChunk ⟨buf⟩ c).2 h2]
    simp only [addChunk, List.flatten_cons]
    have e1 : buf ++ (c ++ cs.flatten) = (buf ++ c) ++ cs.flatten := by
      simp
    rw [e1, scanLines_append (buf ++ c) [] cs.flatten]
    have e2 : scanLines [] ((scanLines [] (buf ++ c)).2 ++ cs.flatten)
        = scanLines (scanLines [] (buf ++ c)).2 cs.flatten := by
      simpa using
        scanLines_shift ((scanLines [] (buf ++ c)).2) h2 [] cs.flatten
    rw [e2]
    simp [lineMessages, List.filterMap_append]

theorem scanLines_eq_splitSep (S : List Char) : ∀ cur,
    scanLines cur S =
      ((consHead cur (splitSep '\n' S)).dropLast,
       (consHead cur (splitSep '\n' S)).getLastD []) := by
  induction S with
  | nil => intro cur; simp [scanLines, splitSep, consHead]
  | cons c cs ih =>
    intro cur
    by_cases h : c = '\n'
    · subst h
      have hsp1 : splitSep '\n' ('\n' :: cs) = [] :: splitSep '\n' cs := by
        simp [splitSep]
      have hscan : scanLines cur ('\n' :: cs) =
          (cur :: (scanLines [] cs).1, (scanLines [] cs).2) := by
        simp [scanLines]
      rw [hscan, ih [], hsp1]
      cases hsp : splitSep '\n' cs with
      | nil => exact absurd hsp (splitSep_ne_nil '\n' cs)
      | cons s rest =>
        simp [consHead, List.dropLast_cons₂, List.getLastD_cons]
    · have hscan : scanLines cur (c :: cs) = scanLines (cur ++ [c]) cs := by
        simp [scanLines, h]
      rw [hscan, ih (cur ++ [c])]
      cases hsp : splitSep '\n' cs with
      | nil => exact absurd hsp (splitSep_ne_nil '\n' cs)
      | cons s rest =>
        have hsp2 : splitSep '\n' (c :: cs) = (c :: s) :: rest := by
          simp [splitSep, h, hsp]
        rw [hsp2]
        simp only [consHead]
        simp [List.append_assoc]

theorem scanLines_nil_eq (S : List Char) :
    scanLines [] S = (completeLines S, restOf S) := by
  rw [scanLines_eq_splitSep S []]
  cases hsp : splitSep '\n' S with
  | nil => exact absurd hsp (splitSep_ne_nil '\n' S)
  | cons s rest => simp [consHead, completeLines, restOf, hsp]

/-- C1: chunking invariance of the line-framing parser.  Feeding any
partition of a string `S` chunk by chunk into a fresh
`PartialJsonParser.addChunk` emits, in order, exactly the messages of the
newline-terminated lines of `S` (the segments of splitting `S` on
newlines, minus the trailing one), and the final segment without a
trailing newline is never emitted but is exactly what remains in the
buffer. -/
theorem chunking_invariance (chunks : List (List Char)) :
    feedChunks ⟨[]⟩ chunks =
      (lineMessages (completeLines chunks.flatten), ⟨restOf chunks.flatten⟩) := by
  rw [feedChunks_eq_addChunk chunks ⟨[]⟩ (by simp)]
  simp only [addChunk, List.nil_append]
  rw [scanLines_nil_eq]

/-! ### Claims C2 and C6: totality and downgrade rules of the decoder -/

theorem decodeCliMessage_none_of_no_type (v : Json)
    (h : jsObjectStringType v = none) : decodeCliMessage v = none := by
  cases v with
  | obj fields =>
    simp only [jsObjectStringType] at h
    simp only [decodeCliMessage]
    cases hf : getField fields kType with
    | none => simp
    | some j =>
      cases j <;> simp_all
  | null => rfl
  | bool b => rfl
  | num m e => rfl
  | str s => rfl
  | arr xs => rfl

theorem decodeCliMessage_none_of_unknown (v : Json) (t : List Char)
    (h : jsObjectStringType v = some t) (hk : isKnownMessageType t = false) :
    decodeCliMessage v = none := by
  cases v with
  | obj fields =>
    simp only [jsObjectStringType] at h
    cases hf : getField fields kType with
    | none => rw [hf] at h; exact absurd h (by simp)
    | some j =>
      rw [hf] at h
      cases j <;> simp at h
      case str s =>
        subst h
        simp only [isKnownMessageType, cliMessageTypeNames] at hk
        simp only [List.contains_cons, List.contains_nil,
          Bool.or_eq_false_iff, beq_eq_false_iff_ne, ne_eq] at hk
        simp [decodeCliMessage, hf, hk.1, hk.2.1, hk.2.2.1, hk.2.2.2.1,
          hk.2.2.2.2.1, hk.2.2.2.2.2.1, hk.2.2.2.2.2.2.1,
          hk.2.2.2.2.2.2.2.1]
  | null => rfl
  | bool b => rfl
  | num m e => rfl
  | str s => rfl
  | arr xs => rfl

/-- C2 (amended): the decoder is a total function into `Option` (so it
never throws), and it returns no message exactly for the lines that start
with `{` and either fail JSON parsing (a `SyntaxError` inside the
`try`) or parse to a JSON value without a string-valued top-level `type`
property; every other line yields a message. -/
theorem decoder_none_characterization (line : List Char) :
    parseStreamJson line = none ↔
      (List.isPrefixOf openBrace line = true ∧
        (jsonParse line = none ∨
          ∃ v, jsonParse line = some v ∧ jsObjectStringType v = none)) := by
  by_cases hp : List.isPrefixOf openBrace line = true
  · cases hj : jsonParse line with
    | none => simp [parseStreamJson, hp, hj]
    | some v =>
      cases hd : decodeCliMessage v with
      | some m =>
        simp only [parseStreamJson, hp, Bool.not_true, Bool.false_eq_true,
          if_false, hj, hd]
        constructor
        · intro hcontra; exact absurd hcontra (by simp)
        · rintro ⟨-, hcase⟩
          rcases hcase with hnone | ⟨v', hv', hty⟩
          · exact absurd hnone (by simp)
          · have hvv : v' = v := (Option.some.inj hv').symm
            subst hvv
            have := decodeCliMessage_none_of_no_type v' hty
            rw [this] at hd
            exact absurd hd (by simp)
      | none =>
        cases ht : jsObjectStringType v with
        | some t =>
          simp [parseStreamJson, hp, hj, hd, ht]
        | none =>
          simp [parseStreamJson, hp, hj, hd, ht]
  · have hp' : List.isPrefixOf openBrace line = false := by
      cases hb : List.isPrefixOf openBrace line
      · rfl
      · exact absurd hb hp
    simp [parseStreamJson, hp']

/-- C2 counterexample: the single character `{` is not valid JSON at all
(the model of `JSON.parse` rejects it, as the builtin throws a
`SyntaxError`), yet the decoder returns no message for it — so "JSON
lacking a `type` field" is not the only input class mapped to "no
message". -/
theorem decoder_none_on_nonjson_input :
    parseStreamJson braceLine = none ∧ jsonParse braceLine = none :=
  ⟨rfl, rfl⟩

/-- C6: downgrade rules of the decoder.  A line not beginning with `{`
comes back verbatim as a raw-text message; a JSON line whose `type` is a
recognised variant name but whose shape fails schema validation comes
back as a raw-text message carrying the original line; and so does a
JSON line with an unrecognised `type`. -/
theorem decoder_downgrade_rules (line : List Char) :
    (List.isPrefixOf openBrace line = false →
      parseStreamJson line = some (CliMessage.raw_text line)) ∧
    (∀ v t, jsonParse line = some v → jsObjectStringType v = some t →
      isKnownMessageType t = true → decodeCliMessage v = none →
      parseStreamJson line = some (CliMessage.raw_text line)) ∧
    (∀ v t, jsonParse line = some v → jsObjectStringType v = some t →
      isKnownMessageType t = false →
      parseStreamJson line = some (CliMessage.raw_text line)) := by
  refine ⟨?_, ?_, ?_⟩
  · intro hp
    simp [parseStreamJson, hp]
  · intro v t hj ht hk hd
    by_cases hp : List.isPrefixOf openBrace line = true
    · simp [parseStreamJson, hp, hj, hd, ht]
    · have hp' : List.isPrefixOf openBrace line = false := by
        cases hb : List.isPrefixOf openBrace line
        · rfl
        · exact absurd hb hp
      simp [parseStreamJson, hp']
  · intro v t hj ht hk
    have hd := decodeCliMessage_none_of_unknown v t ht hk
    by_cases hp : List.isPrefixOf openBrace line = true
    · simp [parseStreamJson, hp, hj, hd, ht]
    · have hp' : List.isPrefixOf openBrace line = false := by
        cases hb : List.isPrefixOf openBrace line
        · rfl
        · exact absurd hb hp
      simp [parseStreamJson, hp']

/-- C6 witness: the three downgrade clauses at the concrete lines
`hello`, `{"type":"thinking"}` (known type, missing required field) and
`{"type":"wibble"}` (unknown type). -/
theorem decoder_downgrade_rules_witness :
    parseStreamJson helloLine = some (CliMessage.raw_text helloLine) ∧
    parseStreamJson knownInvalidLine =
      some (CliMessage.raw_text knownInvalidLine) ∧
    parseStreamJson unknownTypeLine =
      some (CliMessage.raw_text unknownTypeLine) :=
  ⟨(decoder_downgrade_rules helloLine).1 rfl,
   (decoder_downgrade_rules knownInvalidLine).2.1
     (Json.obj [(kType, Json.str kThinking)]) kThinking rfl rfl rfl rfl,
   (decoder_downgrade_rules unknownTypeLine).2.2
     (Json.obj [(kType, Json.str wibbleStr)]) wibbleStr rfl rfl rfl⟩

/-! ### Claim C3: idempotent termination -/

theorem runTriggers_after_called (ts : List EndTrigger) : ∀ s : SessionState,
    s.endHandlersCalled = true →
    (runTriggers s ts).2 = [] ∧ (runTriggers s ts).1.status = s.status ∧
    (runTriggers s ts).1.endHandlersCalled = true := by
  induction ts with
  | nil => intro s h; simp [runTriggers, h]
  | cons t ts ih =>
    intro s h
    cases t with
    | processExit =>
      have : applyTrigger s EndTrigger.processExit = (s, []) := by
        simp [applyTrigger, callEndHandlers, h]
      simpa [runTriggers, this] using ih s h
    | streamClose =>
      have : applyTrigger s EndTrigger.streamClose = (s, []) := by
        simp [applyTrigger, callEndHandlers, h]
      simpa [runTriggers, this] using ih s h
    | explicitEnd =>
      have hstep : applyTrigger s EndTrigger.explicitEnd =
          ({ s with processPresent := false, endHandlers := [] }, []) := by
        simp [applyTrigger, endSessionOp, callEndHandlers, h]
      have := ih { s with processPresent := false, endHandlers := [] } (by simp [h])
      simpa [runTriggers, hstep] using this

theorem applyTrigger_first (s : SessionState) (t : EndTrigger)
    (h : s.endHandlersCalled = false) :
    (applyTrigger s t).2 = s.endHandlers ∧
    (applyTrigger s t).1.status = SessionStatus.ended ∧
    (applyTrigger s t).1.endHandlersCalled = true := by
  cases t <;> simp [applyTrigger, callEndHandlers, endSessionOp, h]

/-- C3: idempotent termination.  From a session whose end guard has not
fired yet, any non-empty sequence of termination signals (duplicate
process exits, stream closures, explicit `end()` calls, in any order)
notifies each registered end handler exactly once in total, and the
status is `ended` after the first signal and stays `ended` for the whole
sequence. -/
theorem idempotent_termination (s : SessionState) (ts : List EndTrigger)
    (hcalled : s.endHandlersCalled = false) (hne : ts ≠ []) :
    (runTriggers s ts).2 = s.endHandlers ∧
    (runTriggers s ts).1.status = SessionStatus.ended ∧
    (∀ pre post, ts = pre ++ post → pre ≠ [] →
      (runTriggers s pre).1.status = SessionStatus.ended) := by
  have main : ∀ t ts', (runTriggers s (t :: ts')).2 = s.endHandlers ∧
      (runTriggers s (t :: ts')).1.status = SessionStatus.ended := by
    intro t ts'
    have h1 := applyTrigger_first s t hcalled
    have h2 := runTriggers_after_called ts' (applyTrigger s t).1 h1.2.2
    constructor
    · simp [runTriggers, h2.1, h1.1]
    · simp [runTriggers, h2.2.1, h1.2.1]
  cases ts with
  | nil => exact absurd rfl hne
  | cons t ts' =>
    refine ⟨(main t ts').1, (main t ts').2, ?_⟩
    intro pre post hsplit hpre
    cases pre with
    | nil => exact absurd rfl hpre
    | cons p ps => exact (main p ps).2

/-- C3 witness: an active session with two listeners receiving a process
exit, a stream closure and an explicit `end()` notifies the two listeners
once and ends. -/
theorem idempotent_termination_witness :
    (runTriggers liveSession exampleTriggers).2 = liveSession.endHandlers ∧
    (runTriggers liveSession exampleTriggers).1.status = SessionStatus.ended :=
  ⟨(idempotent_termination liveSession exampleTriggers rfl
      (by simp [exampleTriggers])).1,
   (idempotent_termination liveSession exampleTriggers rfl
      (by simp [exampleTriggers])).2.1⟩

/-! ### Claim C4: abort suppresses the session-ended notification -/

/-- C4: for an active session with a live process and a captured upstream
conversation id, the WebSocket abort path ends the old session exactly
once (its end guard flips), creates a new session seeded with that id,
and the only transport event emitted is `session_resumed_after_abort` —
no `session_ended` reaches the listener registered before the abort. -/
theorem abort_suppresses_session_ended (s : SessionState) (u : List Char)
    (hact : s.status = SessionStatus.active)
    (hproc : s.processPresent = true)
    (hcalled : s.endHandlersCalled = false)
    (hinit : s.claudeSessionIdFromInit = some u) (hu : u ≠ []) :
    (wsAbortCase s).1.status = SessionStatus.ended ∧
    (wsAbortCase s).1.endHandlersCalled = true ∧
    (wsAbortCase s).2.1 = some (resumeSeeded s.workDir u) ∧
    (resumeSeeded s.workDir u).claudeSessionId = some u ∧
    (wsAbortCase s).2.2 = [WsEvent.session_resumed_after_abort u] := by
  have hemp : u.isEmpty = false := by
    cases u with
    | nil => exact absurd rfl hu
    | cons a l => rfl
  have hsid : getClaudeSessionId s.claudeSessionIdFromInit s.claudeSessionId
      = some u := by
    simp [getClaudeSessionId, hinit, jsTruthy, hemp]
  simp [wsAbortCase, abortRun, hsid, hact, hproc, callEndHandlersWs, hcalled,
    resumeSeeded]

/-- C4 witness: the abort path on the concrete live session with captured
upstream id `U1`. -/
theorem abort_suppresses_session_ended_witness :
    (wsAbortCase liveSession).2.2 =
      [WsEvent.session_resumed_after_abort upstreamId] ∧
    (wsAbortCase liveSession).1.status = SessionStatus.ended ∧
    (wsAbortCase liveSession).2.1 =
      some (resumeSeeded liveSession.workDir upstreamId) :=
  ⟨(abort_suppresses_session_ended liveSession upstreamId rfl rfl rfl rfl
      (by decide)).2.2.2.2,
   (abort_suppresses_session_ended liveSession upstreamId rfl rfl rfl rfl
      (by decide)).1,
   (abort_suppresses_session_ended liveSession upstreamId rfl rfl rfl rfl
      (by decide)).2.2.1⟩

/-! ### Claim C7: commands against an ended session fail -/

/-- C7: when a session's status is `ended` (or its stdin handle is gone),
each of `sendMessage`, `approve`, `reject` and `respondToToolUse` fails
with the "Session is not active" condition and writes nothing to the
subprocess stdin. -/
theorem commands_fail_when_ended (s : SessionState) (now : Nat)
    (msg tid content : List Char)
    (h : s.status = SessionStatus.ended ∨ s.stdinPresent = false) :
    (sendMessage now s msg).2 = Except.error sessionNotActiveMsg ∧
    (sendMessage now s msg).1.stdinWrites = s.stdinWrites ∧
    (approve s).2 = Except.error sessionNotActiveMsg ∧
    (approve s).1.stdinWrites = s.stdinWrites ∧
    (reject s).2 = Except.error sessionNotActiveMsg ∧
    (reject s).1.stdinWrites = s.stdinWrites ∧
    (respondToToolUse now s tid content).2 =
      Except.error sessionNotActiveMsg ∧
    (respondToToolUse now s tid content).1.stdinWrites = s.stdinWrites := by
  cases h with
  | inl he =>
    simp [sendMessage, approve, reject, respondToToolUse, writeToStdin,
      getActiveStdin, touch, he]
  | inr hs =>
    simp [sendMessage, approve, reject, respondToToolUse, writeToStdin,
      getActiveStdin, touch, hs]

/-- C7 witness: the four commands against the concrete ended session. -/
theorem commands_fail_when_ended_witness :
    (sendMessage 7 endedSession msgX).2 = Except.error sessionNotActiveMsg ∧
    (approve endedSession).2 = Except.error sessionNotActiveMsg ∧
    (reject endedSession).2 = Except.error sessionNotActiveMsg ∧
    (respondToToolUse 7 endedSession msgX msgX).2 =
      Except.error sessionNotActiveMsg :=
  ⟨(commands_fail_when_ended endedSession 7 msgX msgX msgX (Or.inl rfl)).1,
   (commands_fail_when_ended endedSession 7 msgX msgX msgX (Or.inl rfl)).2.2.1,
   (commands_fail_when_ended endedSession 7 msgX msgX msgX (Or.inl rfl)).2.2.2.2.1,
   (commands_fail_when_ended endedSession 7 msgX msgX msgX (Or.inl rfl)).2.2.2.2.2.2.1⟩

/-! ### Claim C9: sendMessage touches the activity clock before failing -/

/-- C9: `sendMessage` refreshes `lastActivity` before the liveness check,
so on an ended session it both advances the idle-timeout clock to the
current time and then fails with "Session is not active" without writing
to stdin — the error path is not free of state effects. -/
theorem sendMessage_touches_before_failing (s : SessionState) (now : Nat)
    (msg : List Char) (h : s.status = SessionStatus.ended) :
    (sendMessage now s msg).1.lastActivity = now ∧
    (sendMessage now s msg).2 = Except.error sessionNotActiveMsg ∧
    (sendMessage now s msg).1.stdinWrites = s.stdinWrites := by
  simp [sendMessage, writeToStdin, getActiveStdin, touch, h]

/-- C9 witness: on the ended session (whose `lastActivity` is 5), a
`sendMessage` at time 7 moves `lastActivity` to 7 and still fails. -/
theorem sendMessage_touches_before_failing_witness :
    (sendMessage 7 endedSession msgX).1.lastActivity = 7 ∧
    (sendMessage 7 endedSession msgX).2 = Except.error sessionNotActiveMsg :=
  ⟨(sendMessage_touches_before_failing endedSession 7 msgX rfl).1,
   (sendMessage_touches_before_failing endedSession 7 msgX rfl).2.1⟩

/-! ### Claim C8: init capture, first occurrence wins -/

theorem captureInit_none_eq_initSid (m : CliMessage) :
    captureInit none m = initSid m := by
  cases m with
  | system ts uu st sid cw md mg =>
    by_cases h1 : st = some SystemSubtype.init
    · cases sid with
      | none => simp [captureInit, initSid, h1, jsTruthy]
      | some s =>
        by_cases h2 : s.isEmpty
        · simp [captureInit, initSid, h1, jsTruthy, h2]
        · simp [captureInit, initSid, h1, jsTruthy, h2]
    · simp [captureInit, initSid, h1]
  | assistant ts uu c => rfl
  | user ts uu c => rfl
  | result ts uu rv st => rfl
  | thinking ts uu th => rfl
  | tool_use ts uu tu => rfl
  | permission_request ts uu pr => rfl
  | raw_text tx => rfl

theorem initSid_ne_nil (m : CliMessage) (s : List Char)
    (h : initSid m = some s) : s ≠ [] := by
  cases m <;> simp [initSid] at h
  case system ts uu st sid cw md mg =>
    rcases h with ⟨⟨h1, h2⟩, h3⟩
    subst h3
    simp [jsTruthy] at h2
    intro hnil
    rw [hnil] at h2
    exact absurd rfl h2

theorem captureInit_keeps (msgs : List CliMessage) : ∀ s : List Char, s ≠ [] →
    msgs.foldl captureInit (some s) = some s := by
  induction msgs with
  | nil => intro s hs; rfl
  | cons m ms ih =>
    intro s hs
    have hemp : s.isEmpty = false := by
      cases s with
      | nil => exact absurd rfl hs
      | cons a l => rfl
    have hstep : captureInit (some s) m = some s := by
      cases m with
      | system ts uu st sid cw md mg =>
        by_cases h1 : st = some SystemSubtype.init
        · simp [captureInit, h1, jsTruthy, hemp]
        · simp [captureInit, h1]
      | assistant ts uu c => rfl
      | user ts uu c => rfl
      | result ts uu rv st => rfl
      | thinking ts uu th => rfl
      | tool_use ts uu tu => rfl
      | permission_request ts uu pr => rfl
      | raw_text tx => rfl
    rw [List.foldl_cons, hstep]
    exact ih s hs

theorem captureInit_from_none (msgs : List CliMessage) :
    msgs.foldl captureInit none = (msgs.filterMap initSid).head? := by
  induction msgs with
  | nil => rfl
  | cons m ms ih =>
    rw [List.foldl_cons, captureInit_none_eq_initSid]
    cases hm : initSid m with
    | some s =>
      have hs := initSid_ne_nil m s hm
      simp [List.filterMap_cons, hm, captureInit_keeps ms s hs]
    | none =>
      simp [List.filterMap_cons, hm, ih]

/-- C8: the upstream conversation id is captured from at most one
system/init message — the first init message carrying a (truthy)
`session_id` wins and later ones never overwrite it — and
`getClaudeSessionId` returns the freshly captured id when present, else
the seeded resume id, else nothing. -/
theorem init_capture_first_wins (msgs : List CliMessage)
    (seeded : Option (List Char)) :
    msgs.foldl captureInit none = (msgs.filterMap initSid).head? ∧
    getClaudeSessionId (msgs.foldl captureInit none) seeded =
      ((msgs.filterMap initSid).head?).or seeded := by
  refine ⟨captureInit_from_none msgs, ?_⟩
  rw [captureInit_from_none msgs]
  cases hl : msgs.filterMap initSid with
  | nil => simp [getClaudeSessionId, jsTruthy, Option.or]
  | cons x xs =>
    have hx : x ∈ msgs.filterMap initSid := by
      rw [hl]; exact List.mem_cons_self x xs
    obtain ⟨m, hm, hsid⟩ := List.mem_filterMap.mp hx
    have hxne := initSid_ne_nil m x hsid
    have hemp : x.isEmpty = false := by
      cases x with
      | nil => exact absurd rfl hxne
      | cons a l => rfl
    simp [getClaudeSessionId, jsTruthy, hemp, Option.or]

/-! ### Claims C5 and C10: working-directory validation -/

theorem splitSep_append (sep : Char) (x : List Char) : ∀ y,
    splitSep sep (x ++ sep :: y) = splitSep sep x ++ splitSep sep y := by
  induction x with
  | nil => intro y; simp [splitSep]
  | cons c cs ih =>
    intro y
    by_cases h : c = sep
    · subst h
      simp [splitSep, ih]
    · have e1 : splitSep sep ((c :: cs) ++ sep :: y) =
          match splitSep sep (cs ++ sep :: y) with
          | [] => [[c]]
          | s :: rest => (c :: s) :: rest := by
        simp [splitSep, h]
      rw [e1, ih y]
      cases hs : splitSep sep cs with
      | nil => exact absurd hs (splitSep_ne_nil sep cs)
      | cons s rest =>
        have e2 : splitSep sep (c :: cs) = (c :: s) :: rest := by
          simp [splitSep, h, hs]
        rw [e2]
        simp

theorem splitSep_no_sep (sep : Char) (l : List Char) (h : sep ∉ l) :
    splitSep sep l = [l] := by
  induction l with
  | nil => rfl
  | cons c cs ih =>
    have hc : ¬ (c = sep) := fun hh => h (by simp [hh])
    have h2 : sep ∉ cs := fun hh => h (by simp [hh])
    simp [splitSep, hc, ih h2]

theorem interSegs_cons_of_ne (s : List Char) (rest : List (List Char))
    (h : rest ≠ []) : interSegs (s :: rest) = s ++ '/' :: interSegs rest := by
  cases rest with
  | nil => exact absurd rfl h
  | cons r rs => rfl

theorem splitSep_interSegs (segs : List (List Char))
    (h : ∀ s ∈ segs, '/' ∉ s) (hne : segs ≠ []) :
    splitSep '/' (interSegs segs) = segs := by
  induction segs with
  | nil => exact absurd rfl hne
  | cons s rest ih =>
    cases rest with
    | nil =>
      simpa [interSegs] using splitSep_no_sep '/' s (h s (by simp))
    | cons r rs =>
      rw [interSegs_cons_of_ne s (r :: rs) (by simp)]
      rw [splitSep_append '/' s (interSegs (r :: rs))]
      rw [splitSep_no_sep '/' s (h s (by simp))]
      rw [ih (fun x hx => h x (by simp [hx])) (by simp)]
      simp

theorem foldl_normStep_normal (segs : List (List Char))
    (h : ∀ s ∈ segs, isNormalSeg s) : ∀ acc,
    segs.foldl normStep acc = acc ++ segs := by
  induction segs with
  | nil => intro acc; simp
  | cons s rest ih =>
    intro acc
    have hsn := h s (by simp)
    have hstep : normStep acc s = acc ++ [s] := by
      simp [normStep, hsn.1, hsn.2.1, hsn.2.2]
    rw [List.foldl_cons, hstep, ih (fun x hx => h x (by simp [hx])) (acc ++ [s])]
    simp

theorem resolveP_joinSegs (cwd : List Char) (segs : List (List Char))
    (hnorm : ∀ s ∈ segs, isNormalSeg s) (hnosl : ∀ s ∈ segs, '/' ∉ s)
    (hne : segs ≠ []) : resolveP cwd (joinSegs segs) = joinSegs segs := by
  have e1 : joinSegs segs = '/' :: interSegs segs := rfl
  rw [e1]
  simp only [resolveP]
  have e2 : splitSep '/' ('/' :: interSegs segs) =
      [] :: splitSep '/' (interSegs segs) := by
    simp [splitSep]
  rw [e2, splitSep_interSegs segs hnosl hne]
  have e3 : normSegs ([] :: segs) = segs := by
    simp only [normSegs, List.foldl_cons]
    rw [show normStep [] [] = ([] : List (List Char)) from by simp [normStep]]
    rw [foldl_normStep_normal segs hnorm []]
    simp
  rw [e3]
  exact e1.symm

theorem resolveP_traversal (cwd : List Char) (segs : List (List Char))
    (hnorm : ∀ s ∈ segs, isNormalSeg s) (hnosl : ∀ s ∈ segs, '/' ∉ s)
    (hne : segs ≠ []) :
    resolveP cwd (joinSegs segs ++ dotsEtc) =
      joinSegs (segs.dropLast.dropLast.dropLast ++ [etcSeg]) := by
  have e0 : joinSegs segs ++ dotsEtc =
      '/' :: (interSegs segs ++ '/' :: tailDots) := by
    rw [show dotsEtc = '/' :: tailDots from rfl]
    rfl
  rw [e0]
  simp only [resolveP]
  have e2 : splitSep '/' ('/' :: (interSegs segs ++ '/' :: tailDots)) =
      [] :: (segs ++ [ddSeg, ddSeg, ddSeg, etcSeg]) := by
    have s1 : splitSep '/' ('/' :: (interSegs segs ++ '/' :: tailDots)) =
        [] :: splitSep '/' (interSegs segs ++ '/' :: tailDots) := by
      simp [splitSep]
    rw [s1, splitSep_append '/' (interSegs segs) tailDots]
    rw [splitSep_interSegs segs hnosl hne]
    rw [show splitSep '/' tailDots = [ddSeg, ddSeg, ddSeg, etcSeg] from rfl]
  rw [e2]
  have hdd : ∀ x : List (List Char), normStep x ddSeg = x.dropLast := by
    intro x
    unfold normStep
    rw [if_neg (by decide), if_neg (by decide), if_pos (by decide)]
  have hetc : ∀ x : List (List Char), normStep x etcSeg = x ++ [etcSeg] := by
    intro x
    unfold normStep
    rw [if_neg (by decide), if_neg (by decide), if_neg (by decide)]
  have e3 : normSegs ([] :: (segs ++ [ddSeg, ddSeg, ddSeg, etcSeg])) =
      segs.dropLast.dropLast.dropLast ++ [etcSeg] := by
    simp only [normSegs, List.foldl_cons]
    rw [show normStep [] [] = ([] : List (List Char)) from by simp [normStep]]
    rw [List.foldl_append]
    rw [foldl_normStep_normal segs hnorm []]
    simp only [List.nil_append, List.foldl_cons, List.foldl_nil]
    rw [hdd, hdd, hdd, hetc]
  rw [e3]

theorem joinSegs_length (segs : List (List Char)) (hne : segs ≠ []) :
    (joinSegs segs).length = (segs.map List.length).sum + segs.length := by
  induction segs with
  | nil => exact absurd rfl hne
  | cons s rest ih =>
    cases rest with
    | nil => simp [joinSegs, interSegs]
    | cons r rs =>
      have hi := ih (by simp)
      have e : joinSegs (s :: r :: rs) =
          '/' :: (s ++ '/' :: interSegs (r :: rs)) := rfl
      have e2 : joinSegs (r :: rs) = '/' :: interSegs (r :: rs) := rfl
      rw [e2] at hi
      rw [e]
      simp only [List.length_cons, List.length_append, List.map_cons,
        List.sum_cons] at *
      omega

theorem prefixOf_self (l : List Char) : List.isPrefixOf l l = true := by
  induction l with
  | nil => rfl
  | cons c cs ih => simp [List.isPrefixOf, ih]

theorem exists_last_three (l : List (List Char)) (h : 3 ≤ l.length) :
    ∃ t a b c, l = t ++ [a, b, c] ∧ l.dropLast.dropLast.dropLast = t := by
  cases hr : l.reverse with
  | nil =>
    have : l.length = 0 := by simpa using congrArg List.length hr
    omega
  | cons a r1 =>
    cases r1 with
    | nil =>
      have : l.length = 1 := by simpa using congrArg List.length hr
      omega
    | cons b r2 =>
      cases r2 with
      | nil =>
        have : l.length = 2 := by simpa using congrArg List.length hr
        omega
      | cons c t =>
        have hl : l = t.reverse ++ [c, b, a] := by
          rw [← List.reverse_reverse l, hr]
          simp
        refine ⟨t.reverse, c, b, a, hl, ?_⟩
        rw [hl]
        have e1 : t.reverse ++ [c, b, a] = (t.reverse ++ [c, b]) ++ [a] := by
          simp
        rw [e1, List.dropLast_concat]
        have e2 : t.reverse ++ [c, b] = (t.reverse ++ [c]) ++ [b] := by
          simp
        rw [e2, List.dropLast_concat, List.dropLast_concat]

theorem tmp_prefix_indep (s1 : List Char) (h : s1 ≠ []) (z w : List Char) :
    List.isPrefixOf tmpPath ('/' :: (s1 ++ '/' :: z)) =
    List.isPrefixOf tmpPath ('/' :: (s1 ++ '/' :: w)) := by
  rw [show tmpPath = ['/', 't', 'm', 'p'] from rfl]
  have hm : (('m' : Char) == '/') = false := by decide
  have hp2 : (('p' : Char) == '/') = false := by decide
  cases s1 with
  | nil => exact absurd rfl h
  | cons c1 r1 =>
    cases r1 with
    | nil => simp [List.isPrefixOf, hm]
    | cons c2 r2 =>
      cases r2 with
      | nil => simp [List.isPrefixOf, hp2]
      | cons c3 r3 => simp [List.isPrefixOf]

theorem isValidWorkDir_reject (cwd home : List Char) (fs : List Char → Bool)
    (w : List Char)
    (h1 : List.isPrefixOf (resolveP cwd home) (resolveP cwd w) = false)
    (h2 : List.isPrefixOf (resolveP cwd tmpPath) (resolveP cwd w) = false) :
    (isValidWorkDir cwd home fs w).valid = false := by
  simp [isValidWorkDir, h1, h2]

theorem isValidWorkDir_accept (cwd home : List Char) (fs : List Char → Bool)
    (w : List Char)
    (h1 : List.isPrefixOf (resolveP cwd home) (resolveP cwd w) = true ∨
          List.isPrefixOf (resolveP cwd tmpPath) (resolveP cwd w) = true)
    (h2 : fs (resolveP cwd w) = true) :
    (isValidWorkDir cwd home fs w).valid = true := by
  cases h1 with
  | inl h => simp [isValidWorkDir, h, h2]
  | inr h => simp [isValidWorkDir, h, h2]

/-- C5: path validation.  With `HOME` an ordinary home directory —
modelled as a normalised absolute path (non-empty slash-free normal
segments, so in particular not `/`), not a string prefix of `/etc` and
not itself under the string `/tmp` — and with the home directory and
`/tmp` existing, `isValidWorkDir` accepts the home directory and `/tmp`,
rejects `/etc`, and rejects `<home>/../../../etc`: the relative segments
are resolved to a canonical absolute path before the prefix check. -/
theorem workdir_validation (cwd : List Char) (fs : List Char → Bool)
    (hs : List (List Char))
    (hne : hs ≠ [])
    (hnorm : ∀ s ∈ hs, isNormalSeg s)
    (hnosl : ∀ s ∈ hs, '/' ∉ s)
    (hetc : List.isPrefixOf (joinSegs hs) etcPath = false)
    (htmp : List.isPrefixOf tmpPath (joinSegs hs) = false)
    (hfhome : fs (joinSegs hs) = true)
    (hftmp : fs tmpPath = true) :
    (isValidWorkDir cwd (joinSegs hs) fs (joinSegs hs)).valid = true ∧
    (isValidWorkDir cwd (joinSegs hs) fs tmpPath).valid = true ∧
    (isValidWorkDir cwd (joinSegs hs) fs etcPath).valid = false ∧
    (isValidWorkDir cwd (joinSegs hs) fs (joinSegs hs ++ dotsEtc)).valid
      = false := by
  have hres := resolveP_joinSegs cwd hs hnorm hnosl hne
  have htrav := resolveP_traversal cwd hs hnorm hnosl hne
  have hrtmp : resolveP cwd tmpPath = tmpPath := rfl
  have hretc : resolveP cwd etcPath = etcPath := rfl
  refine ⟨?_, ?_, ?_, ?_⟩
  · exact isValidWorkDir_accept cwd (joinSegs hs) fs (joinSegs hs)
      (Or.inl (by rw [hres]; exact prefixOf_self _)) (by rw [hres]; exact hfhome)
  · exact isValidWorkDir_accept cwd (joinSegs hs) fs tmpPath
      (Or.inr (by rw [hrtmp]; exact prefixOf_self _)) (by rw [hrtmp]; exact hftmp)
  · exact isValidWorkDir_reject cwd (joinSegs hs) fs etcPath
      (by rw [hres, hretc]; exact hetc) (by rw [hrtmp, hretc]; rfl)
  · have hrej :
        List.isPrefixOf (joinSegs hs)
          (joinSegs (hs.dropLast.dropLast.dropLast ++ [etcSeg])) = false ∧
        List.isPrefixOf tmpPath
          (joinSegs (hs.dropLast.dropLast.dropLast ++ [etcSeg])) = false := by
      by_cases hlen : hs.length ≤ 3
      · have h0 : hs.dropLast.dropLast.dropLast = [] := by
          apply List.eq_nil_of_length_eq_zero
          simp only [List.length_dropLast]
          omega
        rw [h0]
        exact ⟨hetc, rfl⟩
      · obtain ⟨t, a, b, c, hsplit, hdrop⟩ := exists_last_three hs (by omega)
        subst hsplit
        rw [hdrop]
        have htne : t ≠ [] := by
          intro h0
          rw [h0] at hlen
          simp at hlen
        have ha : a ≠ [] := (hnorm a (by simp)).1
        have hb : b ≠ [] := (hnorm b (by simp)).1
        have hc : c ≠ [] := (hnorm c (by simp)).1
        constructor
        · cases hpre : List.isPrefixOf (joinSegs (t ++ [a, b, c]))
              (joinSegs (t ++ [etcSeg])) with
          | false => rfl
          | true =>
            exfalso
            have hle := List.IsPrefix.length_le
              (( List.isPrefixOf_iff_prefix).mp hpre)
            have e1 := joinSegs_length (t ++ [a, b, c]) (by simp)
            have e2 := joinSegs_length (t ++ [etcSeg]) (by simp)
            rw [e1, e2] at hle
            simp only [List.map_append, List.sum_append, List.length_append,
              List.map_cons, List.map_nil, List.sum_cons, List.sum_nil,
              List.length_cons, List.length_nil] at hle
            have ha1 : 1 ≤ a.length := List.length_pos.mpr ha
            have hb1 : 1 ≤ b.length := List.length_pos.mpr hb
            have hc1 : 1 ≤ c.length := List.length_pos.mpr hc
            have he3 : etcSeg.length = 3 := rfl
            omega
        · obtain ⟨s1, t2, rfl⟩ : ∃ s1 t2, t = s1 :: t2 := by
            cases t with
            | nil => exact absurd rfl htne
            | cons x xs => exact ⟨x, xs, rfl⟩
          have hs1ne : s1 ≠ [] := (hnorm s1 (by simp)).1
          have hshape1 : joinSegs ((s1 :: t2) ++ [a, b, c]) =
              '/' :: (s1 ++ '/' :: interSegs (t2 ++ [a, b, c])) := by
            rw [List.cons_append]
            rw [show joinSegs (s1 :: (t2 ++ [a, b, c])) =
                '/' :: interSegs (s1 :: (t2 ++ [a, b, c])) from rfl]
            rw [interSegs_cons_of_ne s1 (t2 ++ [a, b, c]) (by simp)]
          have hshape2 : joinSegs ((s1 :: t2) ++ [etcSeg]) =
              '/' :: (s1 ++ '/' :: interSegs (t2 ++ [etcSeg])) := by
            rw [List.cons_append]
            rw [show joinSegs (s1 :: (t2 ++ [etcSeg])) =
                '/' :: interSegs (s1 :: (t2 ++ [etcSeg])) from rfl]
            rw [interSegs_cons_of_ne s1 (t2 ++ [etcSeg]) (by simp)]
          rw [hshape2]
          rw [tmp_prefix_indep s1 hs1ne (interSegs (t2 ++ [etcSeg]))
            (interSegs (t2 ++ [a, b, c]))]
          rw [← hshape1]
          exact htmp
    exact isValidWorkDir_reject cwd (joinSegs hs) fs (joinSegs hs ++ dotsEtc)
      (by rw [hres, htrav]; exact hrej.1) (by rw [hrtmp, htrav]; exact hrej.2)

/-- C5 witness: the concrete home `/home/user` with a filesystem in which
the home directory and `/tmp` exist. -/
theorem workdir_validation_witness :
    (isValidWorkDir rootPath exampleHome exampleFs exampleHome).valid = true ∧
    (isValidWorkDir rootPath exampleHome exampleFs tmpPath).valid = true ∧
    (isValidWorkDir rootPath exampleHome exampleFs etcPath).valid = false ∧
    (isValidWorkDir rootPath exampleHome exampleFs
      (exampleHome ++ dotsEtc)).valid = false :=
  workdir_validation rootPath exampleFs exampleHomeSegs (by decide) (by decide)
    (by decide) (by decide) (by decide) rfl rfl

/-- C10: the allow-list check is a plain string-prefix test on the
resolved path, with no directory-separator requirement: any existing
directory whose resolved path merely begins with the string `/tmp` is
accepted, whether or not it lies inside `/tmp`. -/
theorem prefix_check_not_segment_aware (cwd home : List Char)
    (fs : List Char → Bool) (w : List Char)
    (hpre : List.isPrefixOf tmpPath (resolveP cwd w) = true)
    (hfs : fs (resolveP cwd w) = true) :
    (isValidWorkDir cwd home fs w).valid = true :=
  isValidWorkDir_accept cwd home fs w
    (Or.inr (by rw [show resolveP cwd tmpPath = tmpPath from rfl]; exact hpre))
    hfs

/-- C10 witness: `/tmpfoo` exists, is not `/tmp` and is not inside
`/tmp/`, yet it passes validation because `"/tmpfoo"` starts with the
string `"/tmp"`. -/
theorem prefix_check_not_segment_aware_witness :
    (isValidWorkDir rootPath exampleHome fsTmpFoo tmpFooPath).valid = true ∧
    List.isPrefixOf (tmpPath ++ ['/']) tmpFooPath = false ∧
    tmpFooPath ≠ tmpPath :=
  ⟨prefix_check_not_segment_aware rootPath exampleHome fsTmpFoo tmpFooPath
      rfl rfl,
   rfl, by decide⟩

end CC
